import Mathlib

/-!
Verification of the news-tui Content Scoring & Generation Engine.

Shallow embedding of the core algorithms of the repository:
  * `generate/markov.py`   — n-gram Markov chains (`build_chain`, `generate`,
    `chain_entropy`, tokenizer/detokenizer)
  * `analyze/quality.py`   — information-density scoring (`compute_signal_score`)
  * `analyze/topics.py`    — keyword-based topic tagging (`extract_topics`)
  * `generate/summarize.py`— extractive summarization (`extractive_summary`)
  * `track/drift.py`       — topic drift detection (`detect_topic_drift`)

Python floats are modelled as exact rationals (`ℚ`); the single use of
`math.log2` (chain entropy) is modelled over the reals with `Real.logb 2`.
Python dicts that are built by insertion and iterated in insertion order are
modelled as association lists.  The stateful `random.Random` object handed to
`generate` is modelled as the sealed sequence of draws it will produce: a
`List ℕ`, where `choice` consumes the head draw and indexes the target list
by it modulo its length.
-/

namespace NewsTui

/-! ### Shared character / string utilities -/

/-- ASCII word character in the sense of the regex class `\w`
(letters, digits, underscore). -/
def isWordChar (c : Char) : Bool :=
  c.isAlphanum || c == '_'

/-- Python `str.strip()` on a character list: drop whitespace at both ends. -/
def pyStripList (l : List Char) : List Char :=
  ((l.dropWhile Char.isWhitespace).reverse.dropWhile Char.isWhitespace).reverse

/-- Python `str.strip()`. -/
def pyStrip (s : String) : String :=
  String.mk (pyStripList s.toList)

/-- Truth of Python `not s.strip()`: every character is whitespace. -/
def stripIsEmpty (s : String) : Bool :=
  s.toList.all Char.isWhitespace

/-- Helper for the accumulator scans below: emit the current (reversed) run of
characters as one string, if the run is non-empty. -/
def flushRun (cur : List Char) (rest : List String) : List String :=
  if cur = [] then rest else String.mk cur.reverse :: rest

/-- Python `s.split()` with no separator: maximal runs of non-whitespace
characters, empty pieces dropped.  `cur` is the in-progress run, reversed. -/
def pySplitWsAux (cur : List Char) : List Char → List String
  | [] => flushRun cur []
  | c :: cs =>
    if c.isWhitespace then flushRun cur (pySplitWsAux [] cs)
    else pySplitWsAux (c :: cur) cs

/-- Number of whitespace-separated words of a Python string (`len(s.split())`). -/
def pyWordCount (s : String) : Nat :=
  (pySplitWsAux [] s.toList).length

/-! ### Markov chain engine (`generate/markov.py`) -/

/-- Punctuation characters that `markov._tokenize` keeps as standalone tokens
(the regex alternative `[.,!?;:\"\-\(\)]`). -/
def markovPunct : List Char :=
  ['.', ',', '!', '?', ';', ':', '"', '-', '(', ')']

/-- Character matched by the first regex alternative `[\w']+`. -/
def isMarkovWordChar (c : Char) : Bool :=
  isWordChar c || c == '\''

/-- Emit the current (reversed) word run as one lowercased token, if non-empty. -/
def mflush (cur : List Char) (rest : List String) : List String :=
  if cur = [] then rest else String.mk (cur.reverse.map Char.toLower) :: rest

/-- Core scan of `markov._tokenize`: `re.findall` over the pattern
`[\w']+|[.,!?;:\"\-\(\)]`, lowercasing each match.  A maximal run of word
characters becomes one token; a listed punctuation character becomes its own
token; any other character is skipped.  `cur` is the in-progress word run,
reversed. -/
def mtokenizeAux (cur : List Char) : List Char → List String
  | [] => mflush cur []
  | c :: cs =>
    if isMarkovWordChar c then mtokenizeAux (c :: cur) cs
    else if markovPunct.contains c then
      mflush cur (String.mk [c.toLower] :: mtokenizeAux [] cs)
    else mflush cur (mtokenizeAux [] cs)

/-- `markov._tokenize`: words and punctuation, lowercased. -/
def mtokenize (text : String) : List String :=
  mtokenizeAux [] text.toList

/-- A Markov chain: mapping from an n-token state to the (duplicate-preserving)
list of observed successors, as an insertion-ordered association list —
the shape of the Python `dict[tuple[str, ...], list[str]]`. -/
abbrev MChain := List (List String × List String)

/-- Appending one observed successor to a state's list, mirroring
`chain[key].append(next_word)` on a `defaultdict(list)`: an existing key keeps
its position, a fresh key is appended at the end. -/
def chainAppend (c : MChain) (k : List String) (v : String) : MChain :=
  match c with
  | [] => [(k, [v])]
  | (k', vs) :: rest =>
    if k' = k then (k', vs ++ [v]) :: rest else (k', vs) :: chainAppend rest k v

/-- Lookup of a state's successor list (`chain[key]`), `[]` when absent. -/
def chainFind (c : MChain) (k : List String) : List String :=
  match c with
  | [] => []
  | (k', vs) :: rest => if k' = k then vs else chainFind rest k

/-- Lookup of a state (`key in chain`). -/
def chainFindOpt (c : MChain) (k : List String) : Option (List String) :=
  match c with
  | [] => none
  | (k', vs) :: rest => if k' = k then some vs else chainFindOpt rest k

/-- The loop `for i in range(len(words) - n)` of `build_chain`, processing the
suffix of the token list that starts at the current index `i`. -/
def buildChainAux (n : Nat) (c : MChain) : List String → MChain
  | [] => c
  | w :: ws =>
    if n < (w :: ws).length then
      buildChainAux n
        (chainAppend c ((w :: ws).take n) (((w :: ws).drop n).headD "")) ws
    else c

/-- `markov.build_chain(text, n)`: raises `ValueError` when `n < 1`; returns
the empty chain when the token count is at most `n`; otherwise records every
n-token window's following token. -/
def build_chain (text : String) (n : Nat) : Except String MChain :=
  if n < 1 then Except.error "n must be at least 1"
  else
    let words := mtokenize text
    if words.length ≤ n then Except.ok []
    else Except.ok (buildChainAux n [] words)

/-- Injected random source: the sealed sequence of draws a seeded
`random.Random` will produce.  `choice` consumes the head draw. -/
abbrev RngTape := List Nat

/-- One `rng.choice(seq)` step: pick the element indexed by the next draw
(reduced modulo the sequence length) and advance the tape. -/
def rngChoice (rng : RngTape) (l : List α) (default : α) : α × RngTape :=
  (l.getD (rng.headD 0 % l.length) default, rng.tail)

/-- Generation loop of `markov.generate`: `for _ in range(max_words - n)`,
looking up the last-`n`-token window, stopping at a dead end, otherwise
choosing a successor at random.  `rng.choice` applied to an empty successor
list is Python's `IndexError`. -/
def genLoop (chain : MChain) (n : Nat) (fuel : Nat) (words : List String)
    (rng : RngTape) : Except String (List String) :=
  match fuel with
  | 0 => Except.ok words
  | fuel + 1 =>
    let key := words.drop (words.length - n)
    match chainFindOpt chain key with
    | none => Except.ok words
    | some succs =>
      if succs.isEmpty then Except.error "IndexError: empty sequence"
      else
        genLoop chain n fuel
          (words ++ [succs.getD (rng.headD 0 % succs.length) ""]) rng.tail

/-- Python `str.capitalize()`: first character uppercased, the rest lowercased. -/
def pyCapitalize (s : String) : String :=
  match s.toList with
  | [] => ""
  | c :: cs => String.mk (c.toUpper :: cs.map Char.toLower)

/-- Tokens that suppress the space before them in `markov._detokenize`. -/
def noSpaceBefore : List String := [".", ",", "!", "?", ";", ":", ")", "\""]

/-- Tokens that suppress the space after them in `markov._detokenize`. -/
def noSpaceAfter : List String := ["(", "\""]

/-- Piecewise reassembly of `markov._detokenize`: the first token is
capitalized, later tokens get a leading space unless punctuation spacing
suppresses it.  `prev` is the previous token, `none` at the start. -/
def detokPieces (prev : Option String) : List String → List String
  | [] => []
  | t :: ts =>
    (match prev with
     | none => pyCapitalize t
     | some p =>
       if noSpaceBefore.contains t then t
       else if noSpaceAfter.contains p then t
       else " " ++ t) :: detokPieces (some t) ts

/-- `markov._detokenize`: join the pieces and append an ellipsis when the text
does not already end in terminal punctuation. -/
def detokenize (tokens : List String) : String :=
  if tokens = [] then ""
  else
    let text := String.join (detokPieces none tokens)
    match text.toList.getLast? with
    | none => text
    | some c => if c ∈ ['.', '!', '?'] then text else text ++ "..."

/-- `markov.generate(chain, seed, max_words, rng)`: raises `ValueError` on an
empty chain; picks a random seed state when none is given; walks the chain
until `max_words` tokens or a dead end; detokenizes the result. -/
def generate (chain : MChain) (seed : Option (List String)) (max_words : Nat)
    (rng : RngTape) : Except String String :=
  if chain = [] then Except.error "Cannot generate from empty chain"
  else
    let seeded : List String × RngTape :=
      match seed with
      | some s => (s, rng)
      | none => rngChoice rng (chain.map Prod.fst) []
    let s := seeded.1
    let n := s.length
    match genLoop chain n (max_words - n) s seeded.2 with
    | Except.error e => Except.error e
    | Except.ok words => Except.ok (detokenize words)

/-- Base-2 Shannon entropy of one state's empirical successor distribution:
the inner loop of `markov.chain_entropy` over `counts.values()`.  Python's
float `math.log2` is modelled exactly with `Real.logb 2`. -/
noncomputable def stateEntropy (words : List String) : ℝ :=
  -((words.dedup.map (fun w =>
      ((words.count w : ℝ) / (words.length : ℝ)) *
        Real.logb 2 ((words.count w : ℝ) / (words.length : ℝ)))).sum)

/-- `markov.chain_entropy(chain)`: per-state entropies, skipping states with a
single successor, summed and divided by the total number of states. -/
noncomputable def chain_entropy (chain : MChain) : ℝ :=
  if chain = [] then 0
  else
    (chain.map (fun kv => if kv.2.length ≤ 1 then 0 else stateEntropy kv.2)).sum /
      (chain.length : ℝ)

/-- Modelled from the spec: the average of the per-state entropies taken over
exactly the states having more than one successor (single-successor states
contribute neither a term nor a denominator count); 0 when no such state
exists.  Used to compare the spec's description against `chain_entropy`. -/
noncomputable def chain_entropy_specAvg (chain : MChain) : ℝ :=
  let multi := chain.filter (fun kv => 1 < kv.2.length)
  if multi = [] then 0
  else (multi.map (fun kv => stateEntropy kv.2)).sum / (multi.length : ℝ)

/-! ### Signal scoring (`analyze/quality.py`) -/

/-- Success/failure value mirroring the `Result = Union[Ok, Err]` pattern of
`core/errors.py`. -/
inductive Result (α : Type) (ε : Type) where
  | ok (value : α) : Result α ε
  | err (error : ε) : Result α ε
deriving DecidableEq

/-- Mirror of the `AnalysisError` dataclass of `core/errors.py`. -/
structure AnalysisError where
  article_id : String
  stage : String
  message : String
deriving DecidableEq

/-- Stop words of `analyze/quality.py` (`STOP_WORDS`). -/
def STOP_WORDS : List String :=
  ["the", "a", "an", "is", "are", "was", "were", "be", "been", "being",
   "have", "has", "had", "do", "does", "did", "will", "would", "could",
   "should", "may", "might", "can", "to", "of", "in", "for", "on", "with",
   "at", "by", "from", "as", "into", "through", "during", "before", "after",
   "above", "below", "between", "under", "again", "further", "then", "once",
   "here", "there", "when", "where", "why", "how", "all", "each", "few",
   "more", "most", "other", "some", "such", "no", "nor", "not", "only",
   "own", "same", "so", "than", "too", "very", "just", "and", "but", "if",
   "or", "because", "until", "while", "this", "that", "these", "those",
   "what", "which", "who", "whom", "i", "you", "he", "she", "it", "we", "they",
   "about", "also", "like", "just", "even", "well", "back", "much", "way",
   "say", "said", "says", "one", "two", "first", "new", "now", "time", "year"]

/-- High-signal vocabulary of `analyze/quality.py` (`HIGH_SIGNAL_WORDS`). -/
def HIGH_SIGNAL_WORDS : List String :=
  ["algorithm", "implementation", "architecture", "protocol", "framework",
   "analysis", "methodology", "hypothesis", "theorem", "proof", "evidence",
   "research", "study", "experiment", "data", "statistics", "correlation",
   "cryptographic", "authentication", "latency", "throughput", "scalability",
   "regression", "inference", "optimization", "heuristic", "deterministic",
   "specifically", "precisely", "approximately", "consequently", "therefore",
   "furthermore", "moreover", "nevertheless", "alternatively", "accordingly"]

/-- Low-signal vocabulary of `analyze/quality.py` (`LOW_SIGNAL_WORDS`). -/
def LOW_SIGNAL_WORDS : List String :=
  ["amazing", "incredible", "shocking", "unbelievable", "mindblowing",
   "revolutionary", "groundbreaking", "game-changing", "disruptive",
   "literally", "basically", "actually", "really", "totally", "absolutely",
   "stuff", "things", "something", "whatever", "somehow", "everything",
   "everyone", "nobody", "always", "never", "forever"]

/-- Emit the current (reversed) `\w`-run as a lowercased token provided it
consists only of ASCII letters — a maximal `\w`-run that touches a digit or
underscore has no interior word boundary, so `\b[a-zA-Z]+\b` does not match
it. -/
def qflush (cur : List Char) (rest : List String) : List String :=
  if cur = [] then rest
  else if cur.all Char.isAlpha then String.mk (cur.reverse.map Char.toLower) :: rest
  else rest

/-- Scan for `re.findall(r"\b[a-zA-Z]+\b", text.lower())`: maximal runs of
word characters, kept when purely alphabetic.  `cur` is the in-progress run,
reversed. -/
def qTokenizeAux (cur : List Char) : List Char → List String
  | [] => qflush cur []
  | c :: cs =>
    if isWordChar c then qTokenizeAux (c :: cur) cs
    else qflush cur (qTokenizeAux [] cs)

/-- Word tokens of `compute_signal_score` (and of `summarize._get_keywords`). -/
def qTokenize (text : String) : List String :=
  qTokenizeAux [] text.toList

/-- Sentence-terminal punctuation used by the `[.!?]+` splits. -/
def sentencePunct : List Char := ['.', '!', '?']

/-- Scan for `re.split(r"[.!?]+", text)`: segments between maximal runs of
sentence punctuation.  `cur` is the in-progress segment (reversed); `inRun`
records that the previous character belonged to a punctuation run. -/
def splitPunctAux (cur : List Char) (inRun : Bool) : List Char → List (List Char)
  | [] => [cur.reverse]
  | c :: cs =>
    if sentencePunct.contains c then
      if inRun then splitPunctAux [] true cs
      else cur.reverse :: splitPunctAux [] true cs
    else splitPunctAux (c :: cur) false cs

/-- Number of sentences seen by `compute_signal_score`: split on `[.!?]+`,
keep the segments whose strip is non-empty. -/
def qSentenceCount (text : String) : Nat :=
  (((splitPunctAux [] false text.toList).map pyStripList).filter
    (fun s => !s.isEmpty)).length

/-- The six weighted sub-scores of `compute_signal_score` combined and
clamped — the body of the function after its degenerate-input guards. -/
def signalRaw (text : String) : ℚ :=
  let words := qTokenize text
  let content_words := words.filter (fun w => !(STOP_WORDS.contains w))
  let total_words : ℚ := (words.length : ℚ)
  let content_count : ℚ := (content_words.length : ℚ)
  let unique_frac : ℚ := (content_words.dedup.length : ℚ) / content_count
  let vocab_score := min (unique_frac * (12/10)) 1
  let avg_length : ℚ := ((content_words.map String.length).sum : ℚ) / content_count
  let length_score := max 0 (min ((avg_length - 3) / 5) 1)
  let high_signal_count : ℚ :=
    ((content_words.filter (fun w => HIGH_SIGNAL_WORDS.contains w)).length : ℚ)
  let high_signal_frac := min (high_signal_count / max (content_count / 20) 1) 1
  let low_signal_count : ℚ :=
    ((content_words.filter (fun w => LOW_SIGNAL_WORDS.contains w)).length : ℚ)
  let low_signal_frac := min (low_signal_count / max (content_count / 10) 1) 1
  let sc := qSentenceCount text
  let complexity_score : ℚ :=
    if sc ≠ 0 then
      let avg_sentence_len := total_words / (sc : ℚ)
      if 15 ≤ avg_sentence_len ∧ avg_sentence_len ≤ 25 then 1
      else if avg_sentence_len < 15 then avg_sentence_len / 15
      else max (1/2) (1 - (avg_sentence_len - 25) / 25)
    else 1/2
  let content_frac := content_count / total_words
  let signal := vocab_score * (1/4) + length_score * (3/20) +
    high_signal_frac * (1/5) + (1 - low_signal_frac) * (3/20) +
    complexity_score * (3/20) + content_frac * (1/10)
  max 0 (min 1 signal)

/-- `quality.compute_signal_score(text, article_id)`: neutral 0.5 for
whitespace-only or sub-10-token text, 0.2 when no content words survive the
stop-word filter, otherwise the clamped weighted combination.  The
`article_id` is carried only for error attribution and never used, since no
branch produces an error. -/
def compute_signal_score (text : String) (article_id : String) :
    Result ℚ AnalysisError :=
  if stripIsEmpty text then Result.ok (1/2)
  else if (qTokenize text).length < 10 then Result.ok (1/2)
  else if (qTokenize text).filter (fun w => !(STOP_WORDS.contains w)) = [] then
    Result.ok (1/5)
  else Result.ok (signalRaw text)

/-! ### Topic extraction (`analyze/topics.py`) -/

/-- The fixed topic/keyword table `TOPIC_KEYWORDS` of `analyze/topics.py`,
in its dict insertion order. -/
def TOPIC_KEYWORDS : List (String × List String) :=
  [("ai",
    ["artificial intelligence", "machine learning", "deep learning",
     "neural network", "gpt", "llm", "chatgpt", "openai", "anthropic",
     "transformer", "diffusion", "generative ai"]),
   ("tech",
    ["software", "programming", "developer", "startup", "silicon valley",
     "google", "apple", "microsoft", "amazon", "meta", "facebook"]),
   ("crypto",
    ["cryptocurrency", "bitcoin", "ethereum", "blockchain", "defi",
     "nft", "web3", "stablecoin", "usdc", "usdt"]),
   ("finance",
    ["stock", "market", "investment", "hedge fund", "wall street",
     "fed", "interest rate", "inflation", "economy", "gdp"]),
   ("politics",
    ["election", "congress", "senate", "president", "democrat",
     "republican", "policy", "legislation", "government"]),
   ("science",
    ["research", "study", "scientist", "physics", "biology",
     "chemistry", "climate", "space", "nasa", "cern"]),
   ("culture",
    ["art", "music", "film", "book", "literature", "philosophy",
     "society", "social", "trend"])]

/-- Word-boundary test of regex `\b` at a position whose neighbouring
character (or `none` at either end of the text) is given. -/
def boundaryB : Option Char → Bool
  | none => true
  | some c => !isWordChar c

/-- Count of non-overlapping, word-boundary-delimited occurrences of `phrase`
(the scan of `re.findall(r"\b" + re.escape(keyword) + r"\b", text)`): `prev`
is the character before the current position and `skip` the number of
characters of a just-recognized match still to be stepped over. -/
def countMatchesAux (phrase : List Char) (prev : Option Char) (skip : Nat) :
    List Char → Nat
  | [] => 0
  | c :: cs =>
    match skip with
    | skip + 1 => countMatchesAux phrase (some c) skip cs
    | 0 =>
      if boundaryB prev && !phrase.isEmpty &&
          ((c :: cs).take phrase.length == phrase) &&
          boundaryB ((c :: cs).drop phrase.length).head? then
        1 + countMatchesAux phrase (some c) (phrase.length - 1) cs
      else countMatchesAux phrase (some c) 0 cs

/-- Occurrences of one keyword in a character list. -/
def countMatches (phrase : String) (text : List Char) : Nat :=
  countMatchesAux phrase.toList none 0 text

/-- Python `text.lower()` as a character list. -/
def lowerList (s : String) : List Char :=
  s.toList.map Char.toLower

/-- The `topic_scores` Counter of `extract_topics`: for each topic of the
table, the summed keyword-match counts, recorded (in table order) when
positive.  Per-keyword `Counter` increments with zero counts skipped
accumulate to exactly this, each topic occurring once in the table. -/
def topicScores (text : String) : List (String × Nat) :=
  TOPIC_KEYWORDS.foldl (fun acc p =>
    if 0 < (p.2.map (fun kw => countMatches kw (lowerList text))).sum then
      acc ++ [(p.1, (p.2.map (fun kw => countMatches kw (lowerList text))).sum)]
    else acc) []

/-- Comparison key for Python's stable descending sorts by count
(`Counter.most_common`, `sorted(..., reverse=True)`): `a` may precede `b`
when `a`'s key is at least `b`'s. -/
def byCountDesc (a b : String × Nat) : Prop := b.2 ≤ a.2

instance : DecidableRel byCountDesc :=
  fun a b => inferInstanceAs (Decidable (b.2 ≤ a.2))

/-- `Counter.most_common(k)`: stable sort by descending count, first `k`. -/
def mostCommon (k : Nat) (l : List (String × Nat)) : List (String × Nat) :=
  (List.insertionSort byCountDesc l).take k

/-- `topics.extract_topics(text, max_topics)`: keyword-count ranking capped at
`max_topics`, empty for whitespace-only text; the trailing `if topic` filter
drops falsy (empty-string) tags. -/
def extract_topics (text : String) (max_topics : Nat) : List String :=
  if stripIsEmpty text then []
  else
    ((mostCommon max_topics (topicScores text)).filter
      (fun p => !p.1.isEmpty)).map Prod.fst

/-! ### Extractive summarization (`generate/summarize.py`) -/

/-- Stop words of `summarize._get_keywords` (a list distinct from the one in
`analyze/quality.py`). -/
def SUMMARY_STOP_WORDS : List String :=
  ["the", "a", "an", "is", "are", "was", "were", "be", "been", "being",
   "have", "has", "had", "do", "does", "did", "will", "would", "could",
   "should", "may", "might", "can", "to", "of", "in", "for", "on", "with",
   "at", "by", "from", "as", "into", "through", "during", "before", "after",
   "this", "that", "these", "those", "it", "its", "and", "but", "or", "so",
   "if", "then", "than", "too", "very", "just", "also", "about", "such",
   "there", "here", "when", "where", "what", "which", "who", "whom", "how",
   "all", "each", "every", "both", "few", "more", "most", "other", "some",
   "no", "nor", "not", "only", "own", "same", "you", "your", "they", "their",
   "we", "our", "he", "she", "him", "her", "his", "i", "me", "my"]

/-- Scan of `re.sub(r"([.!?])\s+", r"\1|||", text)` followed by
`split("|||")`: a sentence boundary is a terminal punctuation character
followed by whitespace; the punctuation stays with its sentence.  The
whitespace run after the boundary is left on the following segment — the
caller strips every segment, so this is observationally the substitution's
result. -/
def ssSplitAux (cur : List Char) : List Char → List (List Char)
  | [] => [cur.reverse]
  | [c] => [(c :: cur).reverse]
  | c :: d :: rest =>
    if sentencePunct.contains c && d.isWhitespace then
      (c :: cur).reverse :: ssSplitAux [] (d :: rest)
    else ssSplitAux (c :: cur) (d :: rest)

/-- `summarize._split_sentences`: split at terminal punctuation, strip, drop
empties and fragments of fewer than 3 whitespace-separated words. -/
def ssSentences (text : String) : List String :=
  (((ssSplitAux [] text.toList).map (fun s => String.mk (pyStripList s))).filter
    (fun s => !s.isEmpty)).filter (fun s => 3 ≤ pyWordCount s)

/-- `summarize._get_keywords`: lowercased alphabetic tokens that are neither
stop words nor of length at most 2. -/
def ssKeywords (text : String) : List String :=
  (qTokenize text).filter
    (fun w => !(SUMMARY_STOP_WORDS.contains w) && 2 < w.length)

/-- `summarize._score_sentences`: document-frequency keyword score times
positional bonus times length factor, 0 for keyword-less sentences. -/
def scoreSentences (sentences : List String) : List ℚ :=
  let sentence_keywords := sentences.map ssKeywords
  let all_keywords := sentence_keywords.flatten
  (List.range sentences.length).map (fun i =>
    let keywords := sentence_keywords.getD i []
    if keywords = [] then 0
    else
      let keyword_score :=
        ((keywords.map (fun kw => ((all_keywords.count kw : ℚ)))).sum) /
          (keywords.length : ℚ)
      let position_bonus : ℚ :=
        if ((i : ℚ) / (sentences.length : ℚ)) < 1/5 then 3/2 else 1
      let wc := pyWordCount (sentences.getD i "")
      let length_factor : ℚ :=
        if wc < 15 then min ((wc : ℚ) / 15) 1
        else max (1/2) (1 - ((wc : ℚ) - 30) / 50)
      keyword_score * position_bonus * length_factor)

/-- Comparison key for Python's stable sorts by a rational-valued key in
reverse order: `a` may precede `b` when `key a ≥ key b`. -/
def descBy (f : α → ℚ) (a b : α) : Prop := f b ≤ f a

instance (f : α → ℚ) : DecidableRel (descBy f) :=
  fun a b => inferInstanceAs (Decidable (f b ≤ f a))

/-- `summarize.extractive_summary(text, max_sentences)`: short texts are
returned stripped; otherwise the `max_sentences` best-scoring sentences are
selected and re-joined in original document order. -/
def extractive_summary (text : String) (max_sentences : Nat) : String :=
  if stripIsEmpty text then ""
  else
    let sentences := ssSentences text
    if sentences.length ≤ max_sentences then pyStrip text
    else
      let scores := scoreSentences sentences
      let sorted_sentences :=
        List.insertionSort (descBy (fun p : Nat × String => scores.getD p.1 0))
          sentences.enum
      let top_indices :=
        List.insertionSort (· ≤ ·) ((sorted_sentences.take max_sentences).map Prod.fst)
      String.intercalate " " (top_indices.map (fun i => sentences.getD i ""))

/-! ### Topic drift detection (`track/drift.py`) -/

/-- Mirror of the drift-report dict returned by `detect_topic_drift`
(`dominant_topics`, `percentage`, `article_count`, `suggested_topics`). -/
structure DriftReport where
  dominant_topics : List String
  percentage : ℚ
  article_count : Nat
  suggested_topics : List String
deriving DecidableEq

/-- The fixed `ALTERNATIVES` complementary-topic table of
`drift._suggest_alternatives`. -/
def ALTERNATIVES : List (String × List String) :=
  [("ai", ["philosophy", "culture", "science"]),
   ("tech", ["culture", "science", "finance"]),
   ("crypto", ["finance", "science", "culture"]),
   ("finance", ["science", "culture", "tech"]),
   ("politics", ["science", "culture", "philosophy"]),
   ("science", ["culture", "philosophy", "tech"]),
   ("culture", ["science", "tech", "philosophy"])]

/-- `drift._suggest_alternatives`: union the adjacency rows of the dominant
topics, remove the dominant topics, cap at 3.  Python iterates a hash `set`
whose order is unspecified; the set is realized here as an insertion-ordered
deduplicated list. -/
def suggestAlternativesList (dominant : List String) : List String :=
  ((((dominant.filterMap (fun t => List.lookup t ALTERNATIVES)).flatten).dedup).filter
    (fun s => !dominant.contains s)).take 3

/-- One `Counter` increment (`Counter(all_topics)` builds by insertion order). -/
def counterAdd (c : List (String × Nat)) (k : String) : List (String × Nat) :=
  match c with
  | [] => [(k, 1)]
  | (k', n) :: rest =>
    if k' = k then (k', n + 1) :: rest else (k', n) :: counterAdd rest k

/-- `collections.Counter` over a list of strings. -/
def counterOf (l : List String) : List (String × Nat) :=
  l.foldl counterAdd []

/-- Modelled from the code that the `NameError` of `detect_topic_drift` makes
unreachable (`track/drift.py` lines 38-80): the half-window minimum, the
flattened topic multiset, the dominant share against the threshold, and the
report assembly.  The history window is the list of per-entry topic-tag
lists, most recent first, as delivered by storage. -/
def detect_topic_drift_fixed (history : List (List String)) (window_size : Nat)
    (threshold : ℚ) : Option DriftReport :=
  if history.length < window_size / 2 then none
  else
    let all_topics := (history.take window_size).flatten
    if all_topics = [] then none
    else
      let topic_counts := counterOf all_topics
      let most_common := (List.insertionSort byCountDesc topic_counts).take 3
      let dominant_count : Nat := (most_common.headD ("", 0)).2
      let dominant_percentage : ℚ := (dominant_count : ℚ) / (all_topics.length : ℚ)
      if threshold ≤ dominant_percentage then
        let dominant_topics :=
          (most_common.filter
            (fun p => (dominant_count : ℚ) * (1/2) ≤ (p.2 : ℚ))).map Prod.fst
        some { dominant_topics := dominant_topics,
               percentage := dominant_percentage,
               article_count := (history.take window_size).length,
               suggested_topics := suggestAlternativesList dominant_topics }
      else none

/-- `drift.detect_topic_drift(db, window_size, threshold)` as the source
executes it: line 35 evaluates `isinstance(history_result, err)`, but the
module imports only `StorageError, Result, ok` from `core.errors` — the name
`err` is unbound there, so every call raises `NameError` before any drift
logic runs (and even with the import, `err` is a function, which
`isinstance` rejects).  The function is modelled over the already-loaded
history window; the database read belongs to the excluded storage
collaborator. -/
def detect_topic_drift (history : List (List String)) (window_size : Nat)
    (threshold : ℚ) : Except String (Option DriftReport) :=
  Except.error "NameError: name err is not defined"

/-- The successors a state `k` collects while `build_chain` scans the token
list: for every suffix long enough to contain an `n`-token window plus a
follower, the follower is recorded when the window equals `k`. -/
def succOf (n : Nat) (k : List String) : List String → List String
  | [] => []
  | w :: ws =>
    (if n < (w :: ws).length ∧ (w :: ws).take n = k
     then [((w :: ws).drop n).headD ""] else []) ++ succOf n k ws

deriving instance DecidableEq for Except

end NewsTui

namespace NewsTui

/-! ### Lemmas about the Markov chain engine -/

theorem chainFindOpt_mem : ∀ {c : MChain} {k : List String} {vs : List String},
    chainFindOpt c k = some vs → (k, vs) ∈ c := by
  intro c
  induction c with
  | nil => intro k vs h; simp [chainFindOpt] at h
  | cons hd tl ih =>
    intro k vs h
    obtain ⟨k', vs'⟩ := hd
    simp only [chainFindOpt] at h
    split at h
    · rename_i heq
      cases h
      subst heq
      exact List.mem_cons_self _ _
    · exact List.mem_cons_of_mem _ (ih h)

theorem genLoop_ok (chain : MChain) (hwf : ∀ kv ∈ chain, kv.2 ≠ []) :
    ∀ (n fuel : Nat) (words : List String) (rng : RngTape),
    ∃ ws, genLoop chain n fuel words rng = Except.ok ws := by
  intro n fuel
  induction fuel with
  | zero => intro words rng; exact ⟨words, rfl⟩
  | succ fuel ih =>
    intro words rng
    simp only [genLoop]
    cases hfind : chainFindOpt chain (words.drop (words.length - n)) with
    | none => exact ⟨words, rfl⟩
    | some succs =>
      have hne : succs.isEmpty = false := by
        simpa using hwf _ (chainFindOpt_mem hfind)
      dsimp only
      rw [if_neg (by simp [hne])]
      exact ih _ _

theorem take_succ_eq_parts {α : Type} {d : α} {l1 l2 : List α} {n : Nat}
    (h : l1.take (n + 1) = l2.take (n + 1)) :
    l1.headD d = l2.headD d ∧ l1.tail.take n = l2.tail.take n := by
  cases l1 <;> cases l2 <;> simp_all

theorem take_eq_of_le {α : Type} {l1 l2 : List α} {m k : Nat} (hk : k ≤ m)
    (h : l1.take m = l2.take m) : l1.take k = l2.take k := by
  have h2 := congrArg (List.take k) h
  simpa [List.take_take, Nat.min_eq_left hk] using h2

theorem genLoop_tape_congr (chain : MChain) (n : Nat) :
    ∀ (fuel : Nat) (words : List String) (r1 r2 : RngTape),
    r1.take fuel = r2.take fuel →
    genLoop chain n fuel words r1 = genLoop chain n fuel words r2 := by
  intro fuel
  induction fuel with
  | zero => intros; rfl
  | succ fuel ih =>
    intro words r1 r2 h
    obtain ⟨hh, ht⟩ := take_succ_eq_parts (d := 0) h
    simp only [genLoop]
    cases chainFindOpt chain (words.drop (words.length - n)) with
    | none => rfl
    | some succs =>
      dsimp only
      by_cases he : succs.isEmpty
      · rw [if_pos he, if_pos he]
      · rw [if_neg he, if_neg he, hh]
        exact ih _ _ _ ht

theorem chainFind_chainAppend (c : MChain) (k k' : List String) (v : String) :
    chainFind (chainAppend c k v) k' =
      chainFind c k' ++ (if k = k' then [v] else []) := by
  induction c with
  | nil =>
    simp [chainAppend, chainFind]
  | cons hd tl ih =>
    obtain ⟨ka, vs⟩ := hd
    by_cases h1 : ka = k
    · subst h1
      simp only [chainAppend, if_pos rfl, chainFind]
      by_cases h2 : ka = k'
      · simp [h2]
      · simp [h2]
    · simp only [chainAppend, if_neg h1, chainFind]
      by_cases h2 : ka = k'
      · subst h2
        have hkk : ¬ (k = ka) := fun he => h1 he.symm
        simp [hkk]
      · simp [h2, ih]

theorem succOf_nil_of_le {n : Nat} {k : List String} :
    ∀ {l : List String}, l.length ≤ n → succOf n k l = [] := by
  intro l
  induction l with
  | nil => simp [succOf]
  | cons w ws ih =>
    intro h
    have hws : ws.length ≤ n := by
      simp only [List.length_cons] at h
      omega
    have hn : ¬ (n < (w :: ws).length ∧ (w :: ws).take n = k) := fun hc =>
      absurd hc.1 (Nat.not_lt.mpr h)
    simp only [succOf]
    rw [if_neg hn, ih hws]
    rfl

theorem buildChainAux_find (n : Nat) (k : List String) :
    ∀ (l : List String) (c : MChain),
    chainFind (buildChainAux n c l) k = chainFind c k ++ succOf n k l := by
  intro l
  induction l with
  | nil => intro c; simp [buildChainAux, succOf]
  | cons w ws ih =>
    intro c
    simp only [buildChainAux, succOf]
    by_cases h : n < (w :: ws).length
    · rw [if_pos h, ih, chainFind_chainAppend]
      by_cases hk : (w :: ws).take n = k
      · rw [if_pos hk, if_pos (And.intro h hk), List.append_assoc]
      · rw [if_neg hk, if_neg (fun hc => hk hc.2), List.append_nil,
          List.nil_append]
    · have hlen : ws.length ≤ n := by
        simp only [List.length_cons] at h
        omega
      rw [if_neg h, if_neg (fun hc => absurd hc.1 h), succOf_nil_of_le hlen]
      simp

theorem chainAppend_inv {n : Nat} {c : MChain} {k : List String} {v : String}
    (hc : ∀ kv ∈ c, kv.1.length = n ∧ kv.2 ≠ []) (hk : k.length = n) :
    ∀ kv ∈ chainAppend c k v, kv.1.length = n ∧ kv.2 ≠ [] := by
  induction c with
  | nil =>
    intro kv hkv
    simp [chainAppend] at hkv
    subst hkv
    exact ⟨hk, by simp⟩
  | cons hd tl ih =>
    obtain ⟨k', vs⟩ := hd
    intro kv hkv
    simp only [chainAppend] at hkv
    by_cases h1 : k' = k
    · rw [if_pos h1] at hkv
      rcases List.mem_cons.mp hkv with h | h
      · subst h
        exact ⟨(hc _ (List.mem_cons_self _ _)).1, by simp⟩
      · exact hc _ (List.mem_cons_of_mem _ h)
    · rw [if_neg h1] at hkv
      rcases List.mem_cons.mp hkv with h | h
      · subst h
        exact hc _ (List.mem_cons_self _ _)
      · exact ih (fun kv hkv => hc _ (List.mem_cons_of_mem _ hkv)) _ h

theorem buildChainAux_inv {n : Nat} :
    ∀ (l : List String) (c : MChain),
    (∀ kv ∈ c, kv.1.length = n ∧ kv.2 ≠ []) →
    ∀ kv ∈ buildChainAux n c l, kv.1.length = n ∧ kv.2 ≠ [] := by
  intro l
  induction l with
  | nil => intro c hc; simpa [buildChainAux] using hc
  | cons w ws ih =>
    intro c hc
    simp only [buildChainAux]
    by_cases h : n < (w :: ws).length
    · rw [if_pos h]
      exact ih _ (chainAppend_inv hc
        (by rw [List.length_take]; exact Nat.min_eq_left (Nat.le_of_lt h)))
    · rw [if_neg h]
      exact hc

/-! ### Claim theorems for the Markov chain engine -/

/-- Claim C4: `build_chain` fails exactly when `n < 1`; with `n ≥ 1` and at
most `n` tokens it returns the empty chain; `generate` fails on the empty
chain, and on any non-empty chain whose successor lists are non-empty (the
invariant every built chain satisfies) it succeeds — a dead end terminates
generation normally. -/
theorem claim_markov_error_boundary :
    (∀ (text : String) (n : Nat),
      (∃ e, build_chain text n = Except.error e) ↔ n < 1)
    ∧ (∀ (text : String) (n : Nat), 1 ≤ n → (mtokenize text).length ≤ n →
        build_chain text n = Except.ok [])
    ∧ (∀ (seed : Option (List String)) (max_words : Nat) (rng : RngTape),
        ∃ e, generate [] seed max_words rng = Except.error e)
    ∧ (∀ (chain : MChain) (seed : Option (List String)) (max_words : Nat)
        (rng : RngTape), chain ≠ [] → (∀ kv ∈ chain, kv.2 ≠ []) →
        ∃ s, generate chain seed max_words rng = Except.ok s) := by
  refine ⟨?_, ?_, ?_, ?_⟩
  · intro text n
    constructor
    · rintro ⟨e, he⟩
      by_contra h
      rw [build_chain, if_neg h] at he
      dsimp only at he
      split at he <;> simp at he
    · intro h
      exact ⟨_, by rw [build_chain, if_pos h]⟩
  · intro text n h1 h2
    rw [build_chain, if_neg (by omega)]
    simp only [h2, if_pos]
  · intro seed max_words rng
    exact ⟨_, by rw [generate.eq_def, if_pos rfl]⟩
  · intro chain seed max_words rng hne hwf
    cases seed with
    | some s =>
      obtain ⟨ws, hws⟩ := genLoop_ok chain hwf s.length (max_words - s.length) s rng
      refine ⟨detokenize ws, ?_⟩
      rw [generate.eq_def, if_neg hne]
      dsimp only
      rw [hws]
    | none =>
      obtain ⟨ws, hws⟩ := genLoop_ok chain hwf
        ((chain.map Prod.fst).getD (rng.headD 0 % (chain.map Prod.fst).length) []).length
        (max_words -
          ((chain.map Prod.fst).getD (rng.headD 0 % (chain.map Prod.fst).length) []).length)
        ((chain.map Prod.fst).getD (rng.headD 0 % (chain.map Prod.fst).length) [])
        rng.tail
      refine ⟨detokenize ws, ?_⟩
      rw [generate.eq_def, if_neg hne]
      simp only [rngChoice]
      rw [hws]

/-- Claim C4 witness: concrete error-boundary instances — `n = 0` errors, a
one-token text with `n = 2` yields the empty chain, generation from the empty
chain errors, generation from a well-formed chain succeeds. -/
theorem claim_markov_error_boundary_witness :
    (∃ e, build_chain "x" 0 = Except.error e)
    ∧ build_chain "hello" 2 = Except.ok []
    ∧ (∃ e, generate [] none 5 [0] = Except.error e)
    ∧ (∃ s, generate [(["a"], ["b"])] (some ["a"]) 3 [0, 0, 0] = Except.ok s) :=
  ⟨(claim_markov_error_boundary.1 "x" 0).mpr (by decide),
   claim_markov_error_boundary.2.1 "hello" 2 (by decide) (by decide),
   claim_markov_error_boundary.2.2.1 none 5 [0],
   claim_markov_error_boundary.2.2.2 [(["a"], ["b"])] (some ["a"]) 3 [0, 0, 0]
     (by decide) (by decide)⟩

/-- Claim C5: `generate` is deterministic in the injected random source — two
runs with identical chain, seed and word budget whose random sources agree on
(at least) the draws that can be consumed produce identical output strings. -/
theorem claim_generate_deterministic :
    ∀ (chain : MChain) (seed : Option (List String)) (max_words : Nat)
      (r1 r2 : RngTape),
    r1.take (max_words + 1) = r2.take (max_words + 1) →
    generate chain seed max_words r1 = generate chain seed max_words r2 := by
  intro chain seed max_words r1 r2 h
  by_cases hc : chain = []
  · rw [generate.eq_def, generate.eq_def, if_pos hc, if_pos hc]
  · obtain ⟨hh, ht⟩ := take_succ_eq_parts (d := 0) h
    cases seed with
    | some s =>
      rw [generate.eq_def, generate.eq_def, if_neg hc, if_neg hc]
      dsimp only
      rw [genLoop_tape_congr chain s.length (max_words - s.length) s r1 r2
        (take_eq_of_le (Nat.le_succ_of_le (Nat.sub_le _ _)) h)]
    | none =>
      rw [generate.eq_def, generate.eq_def, if_neg hc, if_neg hc]
      simp only [rngChoice]
      rw [hh]
      rw [genLoop_tape_congr chain
        ((chain.map Prod.fst).getD (r2.headD 0 % (chain.map Prod.fst).length) []).length
        (max_words -
          ((chain.map Prod.fst).getD (r2.headD 0 % (chain.map Prod.fst).length) []).length)
        ((chain.map Prod.fst).getD (r2.headD 0 % (chain.map Prod.fst).length) [])
        r1.tail r2.tail (take_eq_of_le (Nat.sub_le _ _) ht)]

/-- Claim C5 witness: two random tapes that agree on the first six draws but
differ later drive `generate` to the same output. -/
theorem claim_generate_deterministic_witness :
    generate [(["a"], ["b"]), (["b"], ["a"])] (some ["a"]) 5 [0, 1, 2, 3, 4, 5, 99] =
      generate [(["a"], ["b"]), (["b"], ["a"])] (some ["a"]) 5 [0, 1, 2, 3, 4, 5, 42] :=
  claim_generate_deterministic [(["a"], ["b"]), (["b"], ["a"])] (some ["a"]) 5
    [0, 1, 2, 3, 4, 5, 99] [0, 1, 2, 3, 4, 5, 42] (by decide)

/-- Claim C6: every chain `build_chain` returns maps each state to exactly
the document-ordered, duplicate-preserving list of tokens that follow that
state's occurrences as a window in the tokenized text; in particular
`build_chain("a b a b a b c", 1)` records `"b"` three times after `("a",)`,
and `build_chain("the cat sat on the mat", 2)` maps `("the","cat")` to
`["sat"]` and `("on","the")` to `["mat"]`. -/
theorem claim_build_chain_counts :
    (∀ (text : String) (n : Nat) (c : MChain) (k : List String),
      build_chain text n = Except.ok c →
      chainFind c k = succOf n k (mtokenize text))
    ∧ (∃ c, build_chain "a b a b a b c" 1 = Except.ok c ∧
        (chainFind c ["a"]).count "b" = 3)
    ∧ (∃ c, build_chain "the cat sat on the mat" 2 = Except.ok c ∧
        chainFind c ["the", "cat"] = ["sat"] ∧ chainFind c ["on", "the"] = ["mat"]) := by
  refine ⟨?_, ?_, ?_⟩
  · intro text n c k h
    rw [build_chain] at h
    split at h
    · cases h
    · simp only at h
      split at h
      · cases h
        rename_i hlen
        rw [succOf_nil_of_le hlen]
        rfl
      · cases h
        rw [buildChainAux_find]
        rfl
  · exact ⟨[(["a"], ["b", "b", "b"]), (["b"], ["a", "a", "c"])], by decide, by decide⟩
  · exact ⟨[(["the", "cat"], ["sat"]), (["cat", "sat"], ["on"]),
      (["sat", "on"], ["the"]), (["on", "the"], ["mat"])], by decide, by decide, by decide⟩

/-- Claim C6 witness: the general successor-list description instantiated on
a concrete build. -/
theorem claim_build_chain_counts_witness :
    chainFind [(["a"], ["b", "b"]), (["b"], ["a"])] ["a"] =
      succOf 1 ["a"] (mtokenize "a b a b") :=
  claim_build_chain_counts.1 "a b a b" 1 [(["a"], ["b", "b"]), (["b"], ["a"])]
    ["a"] (by decide)

/-- Claim C10: every chain returned by `build_chain(text, n)` with `n ≥ 1`
maps keys of exactly `n` tokens to non-empty successor lists. -/
theorem claim_build_chain_invariant :
    ∀ (text : String) (n : Nat) (c : MChain), 1 ≤ n →
    build_chain text n = Except.ok c →
    ∀ kv ∈ c, kv.1.length = n ∧ kv.2 ≠ [] := by
  intro text n c _ h
  rw [build_chain] at h
  split at h
  · cases h
  · simp only at h
    split at h
    · cases h
      intro kv hkv
      cases hkv
    · cases h
      exact buildChainAux_inv _ [] (by intro kv hkv; cases hkv)

/-- Claim C10 witness: the invariant instantiated on a concrete build and a
concrete entry of the resulting chain. -/
theorem claim_build_chain_invariant_witness :
    (["the"], ["cat"]).1.length = 1 ∧ (["the"], ["cat"]).2 ≠ [] :=
  claim_build_chain_invariant "the cat sat" 1 [(["the"], ["cat"]), (["cat"], ["sat"])]
    (by decide) (by decide) (["the"], ["cat"]) (by decide)

/-! ### Chain entropy (claim C2) -/

theorem stateEntropy_bc : stateEntropy ["b", "c"] = 1 := by
  have hd : (["b", "c"] : List String).dedup = ["b", "c"] := by decide
  have hcb : (["b", "c"] : List String).count "b" = 1 := by decide
  have hcc : (["b", "c"] : List String).count "c" = 1 := by decide
  have hl : Real.logb 2 (1/2 : ℝ) = -1 := by
    rw [show (1/2 : ℝ) = (2:ℝ)⁻¹ by norm_num, Real.logb_inv,
      Real.logb_self_eq_one (by norm_num)]
  rw [stateEntropy, hd]
  simp only [List.map_cons, List.map_nil, List.sum_cons, List.sum_nil, hcb, hcc,
    List.length_cons, List.length_nil]
  push_cast
  rw [hl]
  ring

theorem stateEntropy_bcd : stateEntropy ["b", "c", "d"] = Real.logb 2 3 := by
  have hd : (["b", "c", "d"] : List String).dedup = ["b", "c", "d"] := by decide
  have hcb : (["b", "c", "d"] : List String).count "b" = 1 := by decide
  have hcc : (["b", "c", "d"] : List String).count "c" = 1 := by decide
  have hcd : (["b", "c", "d"] : List String).count "d" = 1 := by decide
  have hl : Real.logb 2 (1/3 : ℝ) = -Real.logb 2 3 := by
    rw [show (1/3 : ℝ) = (3:ℝ)⁻¹ by norm_num, Real.logb_inv]
  rw [stateEntropy, hd]
  simp only [List.map_cons, List.map_nil, List.sum_cons, List.sum_nil, hcb, hcc,
    hcd, List.length_cons, List.length_nil]
  push_cast
  rw [hl]
  ring

theorem entropySum_filter : ∀ c : MChain,
    (c.map (fun kv => if kv.2.length ≤ 1 then (0:ℝ) else stateEntropy kv.2)).sum =
      ((c.filter (fun kv => 1 < kv.2.length)).map (fun kv => stateEntropy kv.2)).sum := by
  intro c
  induction c with
  | nil => rfl
  | cons hd tl ih =>
    by_cases h : hd.2.length ≤ 1
    · have hdec : decide (1 < hd.2.length) = false := by
        simp
        omega
      simp only [List.map_cons, List.sum_cons, if_pos h, List.filter_cons, hdec,
        ih, Bool.false_eq_true, if_false]
      ring
    · have hdec : decide (1 < hd.2.length) = true := by
        simp
        omega
      simp only [List.map_cons, List.sum_cons, if_neg h, List.filter_cons, hdec,
        ih, if_true]

/-- Claim C2 counterexample: on the chain mapping `("a",)` to `["b","c"]` and
`("b",)` to `["c"]`, the code's `chain_entropy` averages over all states
(value 1/2), not over the states with more than one successor (value 1). -/
theorem claim_chain_entropy_counterexample :
    chain_entropy [(["a"], ["b", "c"]), (["b"], ["c"])] ≠
      chain_entropy_specAvg [(["a"], ["b", "c"]), (["b"], ["c"])] := by
  have h1 : chain_entropy [(["a"], ["b", "c"]), (["b"], ["c"])] = 1/2 := by
    rw [chain_entropy, if_neg (by simp)]
    simp only [List.map_cons, List.map_nil, List.sum_cons, List.sum_nil,
      List.length_cons, List.length_nil]
    rw [if_neg (by norm_num), if_pos (by norm_num), stateEntropy_bc]
    norm_num
  have h2 : chain_entropy_specAvg [(["a"], ["b", "c"]), (["b"], ["c"])] = 1 := by
    rw [chain_entropy_specAvg]
    have hf : ([(["a"], ["b", "c"]), (["b"], ["c"])] : MChain).filter
        (fun kv => 1 < kv.2.length) = [(["a"], ["b", "c"])] := by decide
    rw [hf]
    rw [if_neg (by simp)]
    simp only [List.map_cons, List.map_nil, List.sum_cons, List.sum_nil,
      List.length_cons, List.length_nil, stateEntropy_bc]
    norm_num
  rw [h1, h2]
  norm_num

/-- Claim C2 (amended): `chain_entropy` equals the sum of the per-state
base-2 Shannon entropies over the states with more than one successor,
divided by the total number of states of the chain; the empty chain and any
all-single-successor chain yield 0; a one-state chain with three distinct
successors yields a strictly positive value. -/
theorem claim_chain_entropy_amended :
    (∀ c : MChain, c ≠ [] →
      chain_entropy c =
        ((c.filter (fun kv => 1 < kv.2.length)).map
          (fun kv => stateEntropy kv.2)).sum / (c.length : ℝ))
    ∧ chain_entropy [] = 0
    ∧ (∀ c : MChain, (∀ kv ∈ c, kv.2.length ≤ 1) → chain_entropy c = 0)
    ∧ 0 < chain_entropy [(["a"], ["b", "c", "d"])] := by
  refine ⟨?_, ?_, ?_, ?_⟩
  · intro c hc
    rw [chain_entropy, if_neg hc, entropySum_filter]
  · rw [chain_entropy, if_pos rfl]
  · intro c h
    rw [chain_entropy]
    split
    · rfl
    · rw [List.sum_eq_zero, zero_div]
      intro x hx
      obtain ⟨kv, hkv, rfl⟩ := List.mem_map.mp hx
      rw [if_pos (h kv hkv)]
  · rw [chain_entropy, if_neg (by simp)]
    simp only [List.map_cons, List.map_nil, List.sum_cons, List.sum_nil,
      List.length_cons, List.length_nil]
    rw [if_neg (by norm_num), stateEntropy_bcd]
    have hpos := Real.logb_pos (b := 2) (by norm_num) (show (1:ℝ) < 3 by norm_num)
    norm_num
    exact hpos

/-- Claim C2 witness: the all-single-successor case of the amended claim
instantiated on a concrete chain. -/
theorem claim_chain_entropy_amended_witness :
    chain_entropy [(["x"], ["y"])] = 0 :=
  claim_chain_entropy_amended.2.2.1 [(["x"], ["y"])] (by decide)

/-! ### Signal scoring (claims C3 and C9) -/

theorem isWordChar_of_whitespace {c : Char} (h : c.isWhitespace = true) :
    isWordChar c = false := by
  simp only [Char.isWhitespace, Bool.or_eq_true, decide_eq_true_eq] at h
  rcases h with ((h | h) | h) | h <;> (subst h; decide)

theorem qTokenizeAux_whitespace :
    ∀ {l : List Char}, (∀ c ∈ l, c.isWhitespace = true) → qTokenizeAux [] l = [] := by
  intro l
  induction l with
  | nil => intro; rfl
  | cons c cs ih =>
    intro h
    have hw := isWordChar_of_whitespace (h c (List.mem_cons_self _ _))
    rw [qTokenizeAux, if_neg (by simp [hw])]
    have := ih (fun d hd => h d (List.mem_cons_of_mem _ hd))
    rw [this]
    rfl

theorem qTokenize_of_stripIsEmpty {text : String} (h : stripIsEmpty text = true) :
    qTokenize text = [] := by
  rw [qTokenize]
  exact qTokenizeAux_whitespace (by simpa [stripIsEmpty, List.all_eq_true] using h)

theorem signalRaw_bounds (text : String) :
    0 ≤ signalRaw text ∧ signalRaw text ≤ 1 := by
  rw [signalRaw]
  dsimp only
  exact ⟨le_max_left 0 _, max_le (by norm_num) (min_le_left 1 _)⟩

/-- Claim C9: although `compute_signal_score` is typed as a `Result` that may
carry an `AnalysisError`, every input (and every article id) produces the
success variant — the error branch is unreachable. -/
theorem claim_signal_score_total :
    ∀ (text article_id : String),
    ∃ v, compute_signal_score text article_id = Result.ok v := by
  intro text article_id
  rw [compute_signal_score]
  split_ifs <;> exact ⟨_, rfl⟩

/-- Claim C3: `compute_signal_score` always lies in `[0,1]`; whitespace-only
text scores the neutral 1/2, as does text of fewer than 10 word tokens; text
of at least 10 tokens, all of which are stop words, scores 1/5. -/
theorem claim_signal_score_bounds :
    ∀ text : String,
    (∀ (v : ℚ) (a : String), compute_signal_score text a = Result.ok v →
      0 ≤ v ∧ v ≤ 1)
    ∧ (∀ a : String, stripIsEmpty text = true →
        compute_signal_score text a = Result.ok (1/2))
    ∧ (∀ a : String, (qTokenize text).length < 10 →
        compute_signal_score text a = Result.ok (1/2))
    ∧ (∀ a : String, 10 ≤ (qTokenize text).length →
        (qTokenize text).filter (fun w => !(STOP_WORDS.contains w)) = [] →
        compute_signal_score text a = Result.ok (1/5)) := by
  intro text
  refine ⟨?_, ?_, ?_, ?_⟩
  · intro v a h
    rw [compute_signal_score] at h
    split_ifs at h <;> cases h
    · exact ⟨by norm_num, by norm_num⟩
    · exact ⟨by norm_num, by norm_num⟩
    · exact ⟨by norm_num, by norm_num⟩
    · exact signalRaw_bounds text
  · intro a h
    rw [compute_signal_score, if_pos h]
  · intro a h
    rw [compute_signal_score]
    by_cases hs : stripIsEmpty text = true
    · rw [if_pos hs]
    · rw [if_neg hs, if_pos h]
  · intro a h10 hcw
    have hs : ¬ (stripIsEmpty text = true) := by
      intro hse
      rw [qTokenize_of_stripIsEmpty hse] at h10
      simp at h10
    rw [compute_signal_score, if_neg hs, if_neg (Nat.not_lt.mpr h10), if_pos hcw]

/-- Claim C3 witness: each degenerate case and the range bound instantiated
on concrete inputs. -/
theorem claim_signal_score_bounds_witness :
    (0 ≤ (1/2 : ℚ) ∧ (1/2 : ℚ) ≤ 1)
    ∧ compute_signal_score "" "id" = Result.ok (1/2)
    ∧ compute_signal_score "short text" "id" = Result.ok (1/2)
    ∧ compute_signal_score "the a an is are was were be been being" "id" =
        Result.ok (1/5) :=
  ⟨(claim_signal_score_bounds "").1 (1/2) "id"
     ((claim_signal_score_bounds "").2.1 "id" (by decide)),
   (claim_signal_score_bounds "").2.1 "id" (by decide),
   (claim_signal_score_bounds "short text").2.2.1 "id" (by decide),
   (claim_signal_score_bounds "the a an is are was were be been being").2.2.2
     "id" (by decide) (by decide)⟩

/-! ### Topic extraction (claim C8) -/

instance : IsTotal (String × Nat) byCountDesc :=
  ⟨fun a b => le_total b.2 a.2⟩

instance : IsTrans (String × Nat) byCountDesc :=
  ⟨fun _ _ _ h1 h2 => le_trans h2 h1⟩

theorem foldl_append_filterNat {α β : Type} (f : α → β) (g : β → Nat) :
    ∀ (l : List α) (acc : List β),
    l.foldl (fun a x => if 0 < g (f x) then a ++ [f x] else a) acc =
      acc ++ (l.map f).filter (fun b => 0 < g b) := by
  intro l
  induction l with
  | nil => intro acc; simp
  | cons x xs ih =>
    intro acc
    by_cases h : 0 < g (f x) <;>
      simp [List.foldl_cons, h, ih, List.filter_cons]

theorem topicScores_eq (text : String) :
    topicScores text =
      (TOPIC_KEYWORDS.map (fun p =>
        (p.1, (p.2.map (fun kw => countMatches kw (lowerList text))).sum))).filter
        (fun q => 0 < q.2) := by
  have h := foldl_append_filterNat
    (fun p : String × List String =>
      (p.1, (p.2.map (fun kw => countMatches kw (lowerList text))).sum))
    Prod.snd TOPIC_KEYWORDS []
  rw [List.nil_append] at h
  rw [topicScores]
  exact h

theorem topicScores_fst_nodup (text : String) :
    ((topicScores text).map Prod.fst).Nodup := by
  have hkeys : (TOPIC_KEYWORDS.map Prod.fst).Nodup := by decide
  rw [topicScores_eq]
  have h2 := (List.filter_sublist
    (TOPIC_KEYWORDS.map (fun p =>
      (p.1, (p.2.map (fun kw => countMatches kw (lowerList text))).sum)))
    (p := fun q : String × Nat => 0 < q.2)).map Prod.fst
  rw [List.map_map] at h2
  have h3 : TOPIC_KEYWORDS.map
      (Prod.fst ∘ fun p : String × List String =>
        (p.1, (p.2.map (fun kw => countMatches kw (lowerList text))).sum)) =
      TOPIC_KEYWORDS.map Prod.fst :=
    List.map_congr_left (fun a _ => rfl)
  rw [h3] at h2
  exact h2.nodup hkeys

theorem topicScores_mem {text : String} {p : String × Nat}
    (hp : p ∈ topicScores text) :
    0 < p.2 ∧ ∃ kws, (p.1, kws) ∈ TOPIC_KEYWORDS ∧
      p.2 = (kws.map (fun kw => countMatches kw (lowerList text))).sum := by
  rw [topicScores_eq] at hp
  have h1 := List.of_mem_filter hp
  have h2 := List.mem_of_mem_filter hp
  obtain ⟨q, hq, hfq⟩ := List.mem_map.mp h2
  refine ⟨by simpa using h1, q.2, ?_, ?_⟩
  · rw [show p.1 = q.1 from by rw [← hfq]]
    exact hq
  · rw [← hfq]

/-- Claim C8: `extract_topics` returns the empty sequence for whitespace-only
text; at most `max_topics` tags; no tag twice; and the returned sequence is
the tag projection of a count-descending list of positively-scored topics,
each score being the topic's total keyword match count in the text. -/
theorem claim_extract_topics :
    (∀ (text : String) (k : Nat), stripIsEmpty text = true →
      extract_topics text k = [])
    ∧ (∀ (text : String) (k : Nat), (extract_topics text k).length ≤ k)
    ∧ (∀ (text : String) (k : Nat), (extract_topics text k).Nodup)
    ∧ (∀ (text : String) (k : Nat), ∃ L : List (String × Nat),
        extract_topics text k = L.map Prod.fst ∧ L.Pairwise byCountDesc ∧
        ∀ p ∈ L, 0 < p.2 ∧ ∃ kws, (p.1, kws) ∈ TOPIC_KEYWORDS ∧
          p.2 = (kws.map (fun kw => countMatches kw (lowerList text))).sum) := by
  have hsub : ∀ (text : String) (k : Nat),
      List.Sublist ((mostCommon k (topicScores text)).filter (fun p => !p.1.isEmpty))
        (List.insertionSort byCountDesc (topicScores text)) :=
    fun text k => (List.filter_sublist _).trans (List.take_sublist _ _)
  refine ⟨?_, ?_, ?_, ?_⟩
  · intro text k h
    rw [extract_topics, if_pos h]
  · intro text k
    rw [extract_topics]
    split
    · simp
    · rw [List.length_map]
      exact le_trans (List.filter_sublist _).length_le
        (by rw [mostCommon]; exact List.length_take_le _ _)
  · intro text k
    rw [extract_topics]
    split
    · exact List.nodup_nil
    · have hperm := (List.perm_insertionSort byCountDesc (topicScores text)).map
        Prod.fst
      have hnodup : ((List.insertionSort byCountDesc (topicScores text)).map
          Prod.fst).Nodup :=
        hperm.nodup_iff.mpr (topicScores_fst_nodup text)
      exact hnodup.sublist ((hsub text k).map Prod.fst)
  · intro text k
    rw [extract_topics]
    split
    · exact ⟨[], rfl, List.Pairwise.nil, by intro p hp; cases hp⟩
    · refine ⟨(mostCommon k (topicScores text)).filter (fun p => !p.1.isEmpty),
        rfl, ?_, ?_⟩
      · exact ((List.sorted_insertionSort byCountDesc
          (topicScores text)).sublist (hsub text k))
      · intro p hp
        have hmem : p ∈ topicScores text :=
          ((List.perm_insertionSort byCountDesc (topicScores text)).subset)
            ((hsub text k).subset hp)
        exact topicScores_mem hmem

/-- Claim C8 witness: the empty-text case instantiated. -/
theorem claim_extract_topics_witness : extract_topics "" 5 = [] :=
  claim_extract_topics.1 "" 5 (by decide)

/-! ### Extractive summarization (claim C7) -/

theorem pyStripList_nil {l : List Char} (h : ∀ c ∈ l, c.isWhitespace = true) :
    pyStripList l = [] := by
  rw [pyStripList, List.dropWhile_eq_nil_iff.mpr h]
  rfl

theorem pyStrip_of_stripIsEmpty {text : String} (h : stripIsEmpty text = true) :
    pyStrip text = "" := by
  rw [pyStrip, pyStripList_nil (by simpa [stripIsEmpty, List.all_eq_true] using h)]

theorem ssSplitAux_all {P : Char → Prop} :
    ∀ (m : Nat) (l cur : List Char), l.length ≤ m →
    (∀ c ∈ cur, P c) → (∀ c ∈ l, P c) →
    ∀ s ∈ ssSplitAux cur l, ∀ c ∈ s, P c := by
  intro m
  induction m with
  | zero =>
    intro l cur hl hcur _ s hs c hc
    have hnil : l = [] := List.length_eq_zero.mp (Nat.le_zero.mp hl)
    subst hnil
    simp only [ssSplitAux, List.mem_singleton] at hs
    subst hs
    rw [List.mem_reverse] at hc
    exact hcur c hc
  | succ m ih =>
    intro l cur hl hcur hl2 s hs c hc
    cases l with
    | nil =>
      simp only [ssSplitAux, List.mem_singleton] at hs
      subst hs
      rw [List.mem_reverse] at hc
      exact hcur c hc
    | cons a cs =>
      cases cs with
      | nil =>
        simp only [ssSplitAux, List.mem_singleton] at hs
        subst hs
        rw [List.mem_reverse] at hc
        rcases List.mem_cons.mp hc with rfl | hc2
        · exact hl2 c (List.mem_cons_self _ _)
        · exact hcur c hc2
      | cons d rest =>
        have hlen2 : (d :: rest).length ≤ m := by
          simp only [List.length_cons] at hl ⊢
          omega
        have htail : ∀ x ∈ d :: rest, P x :=
          fun x hx => hl2 x (List.mem_cons_of_mem _ hx)
        simp only [ssSplitAux] at hs
        split at hs
        · rcases List.mem_cons.mp hs with rfl | hs2
          · rw [List.mem_reverse] at hc
            rcases List.mem_cons.mp hc with rfl | hc2
            · exact hl2 c (List.mem_cons_self _ _)
            · exact hcur c hc2
          · exact ih (d :: rest) [] hlen2 (by intro x hx; cases hx) htail s hs2 c hc
        · refine ih (d :: rest) (a :: cur) hlen2 ?_ htail s hs c hc
          intro x hx
          rcases List.mem_cons.mp hx with rfl | hx2
          · exact hl2 x (List.mem_cons_self _ _)
          · exact hcur x hx2

theorem ssSentences_of_stripIsEmpty {text : String} (h : stripIsEmpty text = true) :
    ssSentences text = [] := by
  rw [ssSentences]
  have hall : ∀ s ∈ ssSplitAux [] text.toList, ∀ c ∈ s, c.isWhitespace = true :=
    ssSplitAux_all text.toList.length text.toList [] le_rfl
      (by intro c hc; cases hc)
      (by simpa [stripIsEmpty, List.all_eq_true] using h)
  have hfil : ((ssSplitAux [] text.toList).map
      (fun s => String.mk (pyStripList s))).filter (fun s => !s.isEmpty) = [] := by
    rw [List.filter_eq_nil_iff]
    intro s hs
    obtain ⟨raw, hraw, rfl⟩ := List.mem_map.mp hs
    rw [pyStripList_nil (hall raw hraw)]
    decide
  rw [hfil]
  rfl

theorem map_getD_sublist {d : String} :
    ∀ (m : Nat) (is : List Nat) (l : List String), is.length ≤ m →
    is.Pairwise (· < ·) → (∀ i ∈ is, i < l.length) →
    List.Sublist (is.map (fun i => l.getD i d)) l := by
  intro m
  induction m with
  | zero =>
    intro is l hlen _ _
    have hnil : is = [] := List.length_eq_zero.mp (Nat.le_zero.mp hlen)
    subst hnil
    exact List.nil_sublist l
  | succ m ih =>
    intro is l hlen hpw hbd
    cases is with
    | nil => exact List.nil_sublist l
    | cons i is0 =>
      have hp := List.pairwise_cons.mp hpw
      have hi : i < l.length := hbd i (List.mem_cons_self _ _)
      have hgd : l.getD i d = l[i] := by
        rw [List.getD_eq_getElem?_getD, List.getElem?_eq_getElem hi]
        rfl
      have h1 : List.Sublist [l.getD i d] (l.take (i+1)) := by
        rw [List.take_succ, List.getElem?_eq_getElem hi, hgd]
        exact (List.nil_sublist _).append (List.Sublist.refl _)
      have hmap : is0.map (fun j => l.getD j d) =
          (is0.map (fun j => j - (i+1))).map (fun j => (l.drop (i+1)).getD j d) := by
        rw [List.map_map]
        refine List.map_congr_left (fun j hj => ?_)
        have hji : i < j := hp.1 j hj
        show l.getD j d = (l.drop (i+1)).getD (j - (i+1)) d
        rw [List.getD_eq_getElem?_getD, List.getD_eq_getElem?_getD,
          List.getElem?_drop]
        congr 2
        omega
      have h2 : List.Sublist (is0.map (fun j => l.getD j d)) (l.drop (i+1)) := by
        rw [hmap]
        refine ih (is0.map (fun j => j - (i+1))) (l.drop (i+1)) ?_ ?_ ?_
        · rw [List.length_map]
          simp only [List.length_cons] at hlen
          omega
        · rw [List.pairwise_map]
          exact hp.2.imp_of_mem (fun ha _ hab => by
            have := hp.1 _ ha
            omega)
        · intro j hj
          obtain ⟨j0, hj0, rfl⟩ := List.mem_map.mp hj
          have h3 := hbd j0 (List.mem_cons_of_mem _ hj0)
          have h4 : i < j0 := hp.1 j0 hj0
          rw [List.length_drop]
          omega
      have hfin := h1.append h2
      rw [List.take_append_drop] at hfin
      simpa using hfin

/-- Claim C7: when the text has at most `max_sentences` sentences (after
splitting and dropping sub-3-word fragments) `extractive_summary` returns the
stripped input unchanged; on longer text the summary is the space-join of a
selection of exactly `max_sentences` original sentences kept in original
document order (a sublist of the sentence list). -/
theorem claim_extractive_summary :
    (∀ (text : String) (max_sentences : Nat),
      (ssSentences text).length ≤ max_sentences →
      extractive_summary text max_sentences = pyStrip text)
    ∧ (∀ (text : String) (max_sentences : Nat),
        max_sentences < (ssSentences text).length →
        ∃ sel : List String, List.Sublist sel (ssSentences text) ∧
          sel.length = max_sentences ∧
          extractive_summary text max_sentences = String.intercalate " " sel) := by
  constructor
  · intro text ms h
    rw [extractive_summary]
    by_cases hs : stripIsEmpty text = true
    · rw [if_pos hs, pyStrip_of_stripIsEmpty hs]
    · rw [if_neg hs, if_pos h]
  · intro text ms h
    have hs : ¬ (stripIsEmpty text = true) := by
      intro hse
      rw [ssSentences_of_stripIsEmpty hse] at h
      simp at h
    refine ⟨(List.insertionSort (· ≤ ·)
        (((List.insertionSort
            (descBy (fun p : Nat × String =>
              (scoreSentences (ssSentences text)).getD p.1 0))
            (ssSentences text).enum).take ms).map Prod.fst)).map
        (fun i => (ssSentences text).getD i ""), ?_, ?_, ?_⟩
    · have hperm1 := List.perm_insertionSort
        (descBy (fun p : Nat × String =>
          (scoreSentences (ssSentences text)).getD p.1 0))
        (ssSentences text).enum
      have hpermti := List.perm_insertionSort (· ≤ ·)
        ((((List.insertionSort
            (descBy (fun p : Nat × String =>
              (scoreSentences (ssSentences text)).getD p.1 0))
            (ssSentences text).enum)).take ms).map Prod.fst)
      have hbd : ∀ i ∈ (List.insertionSort (· ≤ ·)
          (((List.insertionSort
              (descBy (fun p : Nat × String =>
                (scoreSentences (ssSentences text)).getD p.1 0))
              (ssSentences text).enum).take ms).map Prod.fst)),
          i < (ssSentences text).length := by
        intro i hi
        have h1 := hpermti.subset hi
        have h2 := ((List.take_sublist ms _).map Prod.fst).subset h1
        have h3 := (hperm1.map Prod.fst).subset h2
        rw [List.enum_map_fst] at h3
        exact List.mem_range.mp h3
      have hnodup : (List.insertionSort (· ≤ ·)
          (((List.insertionSort
              (descBy (fun p : Nat × String =>
                (scoreSentences (ssSentences text)).getD p.1 0))
              (ssSentences text).enum).take ms).map Prod.fst)).Nodup := by
        have h1 := List.nodup_enum_map_fst (ssSentences text)
        have h2 := (hperm1.map Prod.fst).nodup_iff.mpr h1
        have h3 := ((List.take_sublist ms _).map Prod.fst).nodup h2
        exact hpermti.nodup_iff.mpr h3
      have hlt := (List.sorted_insertionSort (· ≤ ·)
        (((List.insertionSort
            (descBy (fun p : Nat × String =>
              (scoreSentences (ssSentences text)).getD p.1 0))
            (ssSentences text).enum).take ms).map Prod.fst)).lt_of_le hnodup
      exact map_getD_sublist _ _ _ le_rfl hlt hbd
    · have hperm1 := List.perm_insertionSort
        (descBy (fun p : Nat × String =>
          (scoreSentences (ssSentences text)).getD p.1 0))
        (ssSentences text).enum
      have hpermti := List.perm_insertionSort (· ≤ ·)
        ((((List.insertionSort
            (descBy (fun p : Nat × String =>
              (scoreSentences (ssSentences text)).getD p.1 0))
            (ssSentences text).enum)).take ms).map Prod.fst)
      rw [List.length_map, hpermti.length_eq, List.length_map, List.length_take,
        hperm1.length_eq, List.enum_length]
      exact Nat.min_eq_left (Nat.le_of_lt h)
    · rw [extractive_summary, if_neg hs, if_neg (Nat.not_le.mpr h)]

/-- Claim C7 witness: the short-text identity and the long-text selection
instantiated on concrete texts. -/
theorem claim_extractive_summary_witness :
    (extractive_summary "one two three." 2 = pyStrip "one two three.")
    ∧ ∃ sel : List String,
        List.Sublist sel
          (ssSentences "Alpha beta gamma. Delta epsilon zeta. Eta theta iota words here.") ∧
        sel.length = 1 ∧
        extractive_summary
            "Alpha beta gamma. Delta epsilon zeta. Eta theta iota words here." 1 =
          String.intercalate " " sel :=
  ⟨claim_extractive_summary.1 "one two three." 2 (by decide),
   claim_extractive_summary.2
     "Alpha beta gamma. Delta epsilon zeta. Eta theta iota words here." 1
     (by decide)⟩

/-! ### Topic drift detection (claim C1) -/

/-- Claim C1: the spec's contract for the drift detector holds only in the
dead code — as written, `detect_topic_drift` raises `NameError` on every call
because line 35 of `track/drift.py` references the unimported name `err`.
The unreachable remainder of the function (modelled as
`detect_topic_drift_fixed`) does satisfy the claim: the 10-entry window with
8 entries tagged "ai" yields a report with dominant topic "ai" and share
0.8, and a 2-entry window (below the half-window minimum of 5) yields `None`
whatever the threshold and however concentrated the tags. -/
theorem claim_drift_detector_raises :
    (∀ (history : List (List String)) (window_size : Nat) (threshold : ℚ),
      detect_topic_drift history window_size threshold =
        Except.error "NameError: name err is not defined")
    ∧ detect_topic_drift_fixed
        [["ai"], ["ai"], ["ai"], ["ai"], ["ai"], ["ai"], ["ai"], ["ai"],
         ["tech"], ["science"]] 10 (3/4) =
        some { dominant_topics := ["ai"], percentage := 4/5, article_count := 10,
               suggested_topics := ["philosophy", "culture", "science"] }
    ∧ (∀ threshold : ℚ,
        detect_topic_drift_fixed [["ai"], ["ai"]] 10 threshold = none) := by
  refine ⟨fun _ _ _ => rfl, ?_, ?_⟩
  · rw [detect_topic_drift_fixed, if_neg (by decide)]
    dsimp only
    rw [show (([["ai"], ["ai"], ["ai"], ["ai"], ["ai"], ["ai"], ["ai"], ["ai"],
        ["tech"], ["science"]] : List (List String)).take 10).flatten =
      ["ai", "ai", "ai", "ai", "ai", "ai", "ai", "ai", "tech", "science"] from
      by decide]
    rw [if_neg (by decide)]
    rw [show counterOf
        ["ai", "ai", "ai", "ai", "ai", "ai", "ai", "ai", "tech", "science"] =
      [("ai", 8), ("tech", 1), ("science", 1)] from by decide]
    rw [show (List.insertionSort byCountDesc
        [("ai", 8), ("tech", 1), ("science", 1)]).take 3 =
      [("ai", 8), ("tech", 1), ("science", 1)] from by decide]
    rw [show (([("ai", 8), ("tech", 1), ("science", 1)] :
        List (String × Nat)).headD ("", 0)).2 = 8 from by decide]
    rw [show (["ai", "ai", "ai", "ai", "ai", "ai", "ai", "ai", "tech",
        "science"] : List String).length = 10 from by decide]
    rw [if_pos (by norm_num)]
    rw [show ([("ai", 8), ("tech", 1), ("science", 1)] :
        List (String × Nat)).filter
        (fun p => ((8:ℕ):ℚ) * (1/2) ≤ ((p.2 : ℕ):ℚ)) = [("ai", 8)] from by
      simp only [List.filter_cons, List.filter_nil, decide_eq_true_eq]
      norm_num]
    rw [show ([("ai", 8)] : List (String × Nat)).map Prod.fst = ["ai"] from
      by decide]
    rw [show suggestAlternativesList ["ai"] =
      ["philosophy", "culture", "science"] from by decide]
    rw [show (([["ai"], ["ai"], ["ai"], ["ai"], ["ai"], ["ai"], ["ai"], ["ai"],
        ["tech"], ["science"]] : List (List String)).take 10).length = 10 from
      by decide]
    simp only [Option.some.injEq, DriftReport.mk.injEq]
    norm_num
  · intro threshold
    rw [detect_topic_drift_fixed, if_pos (by decide)]

end NewsTui
